import Mathlib

/-!
Verification of the scoped-thread-pool library (src/lib.rs).

The embedding has two layers:

1. A pure state model of `WaitGroup` (`WGState`): `pending : Nat` and
   `poisoned : Bool`, exactly the fields of `WaitGroupState` in the source.
   `submit`, `complete` and `poison` are translated from the source; the
   unguarded `pending -= 1` of `complete`/`poison` is modelled as a checked
   decrement that faults on underflow (Rust declares unsigned overflow a
   program error; in checked builds it panics).  `join`'s behaviour once the
   lock is held is modelled by `joinPoll`: `none` while `pending > 0` (the
   caller blocks on the condvar), otherwise the outcome at the moment
   `pending == 0` is observed.

2. A trace model of the control flow of `Pool`, `Scope`, the worker loop and
   the two sentinels.  Jobs and queues are identified by natural numbers;
   waitgroups are allocated from a heap (`WGHeap`, a list of `WGState`) so
   that freshness of a scope's waitgroup is a statement of the model.  Each
   operation is translated into the list of primitive events (`Event`) it
   performs, in source order; blocking points (`queuePop`, `wgJoin`) appear
   as events.  A scheduler passed to `zoom`/`scoped` is abstracted as a
   function from the inner scope and heap to a result (which may be a
   fault), the trace of events it performed, and the final heap; the
   poisoned-or-not outcome of the deferred inner join is a Boolean
   parameter, since it depends on concurrently running tasks.
-/

namespace SPool

/-- The single error kind of the system: a job/scheduler fault, a fault
surfaced by a poisoned join, or the arithmetic fault of an unmatched
`complete`/`poison` underflowing the `pending` counter. -/
inductive Fault
| jobFault (code : Nat)
| poisonedFault
| underflowFault
deriving DecidableEq, Repr

/-- State of a `WaitGroup`: the fields of `WaitGroupState` in the source
(`pending: usize`, `poisoned: bool`). -/
structure WGState where
  pending : Nat
  poisoned : Bool
deriving DecidableEq, Repr

/-- `WaitGroup::new()`: pending 0, not poisoned. -/
def WGState.new : WGState := { pending := 0, poisoned := false }

/-- `WaitGroup::waiting()`: snapshot of `pending`. -/
def WGState.waiting (s : WGState) : Nat := s.pending

/-- `WaitGroup::submit()`: `pending += 1`. -/
def WGState.submit (s : WGState) : WGState :=
  { s with pending := s.pending + 1 }

/-- `WaitGroup::complete()`: unguarded `pending -= 1` (faults on underflow);
wakes joiners when pending reaches 0 (the wake is not part of the state). -/
def WGState.complete (s : WGState) : Except Fault WGState :=
  if s.pending = 0 then Except.error Fault.underflowFault
  else Except.ok { s with pending := s.pending - 1 }

/-- `WaitGroup::poison()`: sets `poisoned = true`, then unguarded
`pending -= 1` (faults on underflow). -/
def WGState.poison (s : WGState) : Except Fault WGState :=
  if s.pending = 0 then Except.error Fault.underflowFault
  else Except.ok { pending := s.pending - 1, poisoned := true }

/-- `WaitGroup::join()` once the lock is held: `none` while `pending > 0`
(the caller waits on the condvar and re-polls); once `pending == 0`,
the outcome: a fault if `poisoned`, otherwise a normal return. -/
def WGState.joinPoll (s : WGState) : Option (Except Fault Unit) :=
  if s.pending = 0 then
    some (if s.poisoned then Except.error Fault.poisonedFault else Except.ok ())
  else none

/-- The three mutating WaitGroup operations, for reasoning about sequences. -/
inductive WGOp
| submit
| complete
| poison
deriving DecidableEq, Repr

/-- Apply one operation to a WaitGroup state. -/
def WGState.applyOp (s : WGState) : WGOp → Except Fault WGState
  | WGOp.submit => Except.ok s.submit
  | WGOp.complete => s.complete
  | WGOp.poison => s.poison

/-- Run a sequence of WaitGroup operations, stopping at the first fault. -/
def runOps : WGState → List WGOp → Except Fault WGState
  | s, [] => Except.ok s
  | s, op :: rest =>
    match s.applyOp op with
    | Except.ok s2 => runOps s2 rest
    | Except.error e => Except.error e

/-- Number of `submit`s in a sequence. -/
def countSubmits : List WGOp → Nat
  | [] => 0
  | WGOp.submit :: rest => countSubmits rest + 1
  | _ :: rest => countSubmits rest

/-- Number of `complete`s plus `poison`s in a sequence. -/
def countDowns : List WGOp → Nat
  | [] => 0
  | WGOp.submit :: rest => countDowns rest
  | _ :: rest => countDowns rest + 1

/-- Whether a sequence contains a `poison`. -/
def anyPoisoned : List WGOp → Bool
  | [] => false
  | WGOp.poison :: _ => true
  | _ :: rest => anyPoisoned rest

/-- Well-matchedness relative to `credit` outstanding submits: every
`complete`/`poison` is covered by a prior unconsumed `submit`. -/
def wmAux : Nat → List WGOp → Bool
  | _, [] => true
  | credit, WGOp.submit :: rest => wmAux (credit + 1) rest
  | credit, WGOp.complete :: rest => decide (0 < credit) && wmAux (credit - 1) rest
  | credit, WGOp.poison :: rest => decide (0 < credit) && wmAux (credit - 1) rest

/-- A sequence starting from an empty WaitGroup is well matched when each
`complete`/`poison` has a matching prior `submit`. -/
def wellMatched (l : List WGOp) : Bool := wmAux 0 l

lemma wmAux_runOps (l : List WGOp) : ∀ (c : Nat) (b : Bool), wmAux c l = true →
    runOps { pending := c, poisoned := b } l =
      Except.ok { pending := c + countSubmits l - countDowns l,
                  poisoned := b || anyPoisoned l } := by
  induction l with
  | nil =>
    intro c b _
    simp [runOps, countSubmits, countDowns, anyPoisoned]
  | cons op rest ih =>
    intro c b hwm
    cases op with
    | submit =>
      rw [wmAux] at hwm
      simp only [runOps, WGState.applyOp, WGState.submit, countSubmits, countDowns,
        anyPoisoned]
      rw [ih (c + 1) b hwm]
      simp only [Except.ok.injEq, WGState.mk.injEq]
      exact ⟨by omega, trivial⟩
    | complete =>
      rw [wmAux, Bool.and_eq_true, decide_eq_true_iff] at hwm
      obtain ⟨hc, hrest⟩ := hwm
      have hne : c ≠ 0 := by omega
      simp only [runOps, WGState.applyOp, WGState.complete, hne, if_false,
        countSubmits, countDowns, anyPoisoned]
      rw [ih (c - 1) b hrest]
      simp only [Except.ok.injEq, WGState.mk.injEq]
      exact ⟨by omega, trivial⟩
    | poison =>
      rw [wmAux, Bool.and_eq_true, decide_eq_true_iff] at hwm
      obtain ⟨hc, hrest⟩ := hwm
      have hne : c ≠ 0 := by omega
      simp only [runOps, WGState.applyOp, WGState.poison, hne, if_false,
        countSubmits, countDowns, anyPoisoned]
      rw [ih (c - 1) true hrest]
      simp only [Except.ok.injEq, WGState.mk.injEq]
      exact ⟨by omega, by simp⟩

lemma wellMatched_runOps (l : List WGOp) (h : wellMatched l = true) :
    runOps WGState.new l =
      Except.ok { pending := countSubmits l - countDowns l,
                  poisoned := anyPoisoned l } := by
  have := wmAux_runOps l 0 false h
  simpa [WGState.new] using this

lemma wmAux_append_left (p q : List WGOp) : ∀ c, wmAux c (p ++ q) = true →
    wmAux c p = true := by
  induction p with
  | nil => intro c _; rfl
  | cons op rest ih =>
    intro c h
    cases op with
    | submit =>
      rw [List.cons_append, wmAux] at h
      rw [wmAux]
      exact ih (c + 1) h
    | complete =>
      rw [List.cons_append, wmAux, Bool.and_eq_true] at h
      rw [wmAux, Bool.and_eq_true]
      exact ⟨h.1, ih (c - 1) h.2⟩
    | poison =>
      rw [List.cons_append, wmAux, Bool.and_eq_true] at h
      rw [wmAux, Bool.and_eq_true]
      exact ⟨h.1, ih (c - 1) h.2⟩

lemma wellMatchedMono (p l : List WGOp) (hp : p <+: l)
    (h : wellMatched l = true) : wellMatched p = true := by
  obtain ⟨q, rfl⟩ := hp
  exact wmAux_append_left p q 0 h

/-! ### Trace model of Pool, Scope, worker loop and sentinels

Waitgroups live in a heap (`WGHeap`); a waitgroup reference (an
`Arc<WaitGroup>` in the source) is its index.  Jobs are identified by
numbers.  Each operation of the library is translated into the list of
primitive `Event`s it performs, in the order the source performs them. -/

/-- Heap of allocated waitgroups; an `Arc<WaitGroup>` is an index into it. -/
abbrev WGHeap := List WGState

/-- Allocate a fresh waitgroup (`Arc::new(WaitGroup::new())`): its reference
is the current heap length, and the heap grows by one empty waitgroup. -/
def allocWG (h : WGHeap) : Nat × WGHeap := (h.length, h ++ [WGState.new])

/-- A queue message, `PoolMessage` in the source: `Quit`, or
`Task(job, waitgroup-reference)` with the job's closure type-erased to an
identifier. -/
inductive PoolMessage
| quit
| task (job : Nat) (wg : Nat)
deriving DecidableEq, Repr

/-- A primitive event performed by the library: a waitgroup operation
(by reference), a queue push or blocking pop, an OS thread spawn, or the
start of a job closure. -/
inductive Event
| wgSubmit (w : Nat)
| wgComplete (w : Nat)
| wgPoison (w : Nat)
| wgJoin (w : Nat)
| queuePush (m : PoolMessage)
| queuePop (m : PoolMessage)
| threadSpawn
| jobRun (j : Nat)
deriving DecidableEq, Repr

/-- A `Pool` handle: references to the shared queue and the pool-wide
worker waitgroup.  `Pool::clone` duplicates the handle, so handles with the
same references are the same pool. -/
structure Pool where
  queueId : Nat
  wgId : Nat
deriving DecidableEq, Repr

/-- A `Scope`: a `Pool` handle plus a reference to the per-scope waitgroup.
The zero-sized lifetime witness `_scope : Id<'scope>` has no runtime
content and is omitted. -/
structure Scope where
  pool : Pool
  wgId : Nat
deriving DecidableEq, Repr

/-- `Scope::forever(pool)`: a scope on `pool` with a freshly allocated
waitgroup. -/
def Scope.forever (p : Pool) (h : WGHeap) : Scope × WGHeap :=
  let (w, h2) := allocWG h
  ({ pool := p, wgId := w }, h2)

/-- `Scope::refine`: a scope with a smaller lifetime on the same pool, with
a freshly allocated waitgroup. -/
def Scope.refine (s : Scope) (h : WGHeap) : Scope × WGHeap :=
  let (w, h2) := allocWG h
  ({ pool := s.pool, wgId := w }, h2)

/-- `Scope::execute(job)`: `self.wait.submit()` first, then
`self.pool.queue.push(PoolMessage::Task(task, self.wait.clone()))`. -/
def Scope.execute (s : Scope) (job : Nat) : List Event :=
  [Event.wgSubmit s.wgId, Event.queuePush (PoolMessage.task job s.wgId)]

/-- `Pool::spawn(job)`: `Scope::forever(self.clone()).execute(job)`. -/
def Pool.spawn (p : Pool) (job : Nat) (h : WGHeap) : List Event × WGHeap :=
  let (s, h2) := Scope.forever p h
  (s.execute job, h2)

/-- `Pool::expand()`: `pool.wait.submit()` first, then
`thread::spawn(...)`. -/
def Pool.expandTrace (p : Pool) : List Event :=
  [Event.wgSubmit p.wgId, Event.threadSpawn]

/-- The per-task `Sentinel(Pool, Option<Arc<WaitGroup>>)`. -/
structure Sentinel where
  pool : Pool
  wg : Option Nat
deriving DecidableEq, Repr

/-- `Sentinel::cancel`: `self.1.take().map(|wait| wait.complete())` — takes
the waitgroup reference out, completing it if present.  Returns the
sentinel as it stands after the take (its later destruction is a no-op). -/
def Sentinel.cancelRun (s : Sentinel) : Sentinel × List Event :=
  match s.wg with
  | some w => ({ s with wg := none }, [Event.wgComplete w])
  | none => ({ s with wg := none }, [])

/-- `Drop for Sentinel`: `self.1.take().map(|wait| wait.poison())`. -/
def Sentinel.dropRun (s : Sentinel) : List Event :=
  match s.wg with
  | some w => [Event.wgPoison w]
  | none => []

/-- The per-thread `ThreadSentinel(Option<Pool>)`. -/
structure ThreadSentinel where
  pool : Option Pool
deriving DecidableEq, Repr

/-- `ThreadSentinel::cancel`: takes the pool handle out and completes the
pool-wide waitgroup if it was present. -/
def ThreadSentinel.cancelRun (t : ThreadSentinel) : ThreadSentinel × List Event :=
  match t.pool with
  | some p => ({ pool := none }, [Event.wgComplete p.wgId])
  | none => ({ pool := none }, [])

/-- `Drop for ThreadSentinel`: if not cancelled, restart the thread first
(`pool.expand()`), then poison the pool-wide waitgroup. -/
def ThreadSentinel.dropRun (t : ThreadSentinel) : List Event :=
  match t.pool with
  | some p => p.expandTrace ++ [Event.wgPoison p.wgId]
  | none => []

/-- Result of one iteration of the worker loop in `Pool::run_thread`:
continue looping, exit the loop normally (`break` on `Quit`), or terminate
by unwinding (a job fault). -/
inductive StepResult
| cont (tr : List Event) (ts : ThreadSentinel)
| exitOk (tr : List Event)
| exitFault (tr : List Event)
deriving DecidableEq, Repr

/-- One iteration of the worker loop of `Pool::run_thread`, given the popped
message and (for a task) whether its job runs to completion (`jobOk`) or
faults.  On `Quit`: re-push `Quit`, cancel the thread sentinel, `break`;
the cancelled sentinel's destructor at thread exit adds nothing.  On
`Task(job, wg)`: build a task sentinel over `wg`, run the job; if it
completes, cancel the sentinel (the emptied sentinel's drop adds nothing)
and loop; if it faults, the task sentinel's destructor runs, then the
thread sentinel's destructor runs as the unwind leaves the thread. -/
def Pool.workerStep (p : Pool) (ts : ThreadSentinel) (m : PoolMessage)
    (jobOk : Bool) : StepResult :=
  match m with
  | PoolMessage.quit =>
    let (ts2, ctr) := ts.cancelRun
    StepResult.exitOk
      ([Event.queuePop PoolMessage.quit, Event.queuePush PoolMessage.quit]
        ++ ctr ++ ts2.dropRun)
  | PoolMessage.task j w =>
    let sent : Sentinel := { pool := p, wg := some w }
    if jobOk then
      let (sent2, ctr) := sent.cancelRun
      StepResult.cont
        ([Event.queuePop (PoolMessage.task j w), Event.jobRun j]
          ++ ctr ++ sent2.dropRun) ts
    else
      StepResult.exitFault
        ([Event.queuePop (PoolMessage.task j w), Event.jobRun j]
          ++ sent.dropRun ++ ts.dropRun)

/-- Semantics of a scheduler function passed to `zoom`/`scoped`: from the
scope it is handed and the current heap, it produces a result (possibly a
fault), the trace of events it performed, and the final heap. -/
abbrev SchedSem (α : Type) := Scope → WGHeap → Except Fault α × List Event × WGHeap

/-- `Scope::zoom(scheduler)`: `refine` a fresh inner scope, run the
scheduler on it, and — via `defer!(scope.join())` — join the inner scope on
every exit path, normal or unwinding.  `joinPoisoned` abstracts whether the
inner waitgroup is poisoned when the deferred join drains it: a normal
return of `f` then turns into a fault, while a fault of `f` keeps
propagating after the join has completed. -/
def Scope.zoom {α : Type} (s : Scope) (f : SchedSem α) (joinPoisoned : Bool)
    (h : WGHeap) : Except Fault α × List Event × WGHeap :=
  let inner := (Scope.refine s h).1
  let h1 := (Scope.refine s h).2
  let out := f inner h1
  let res : Except Fault α :=
    match out.1 with
    | Except.ok v =>
      if joinPoisoned then Except.error Fault.poisonedFault else Except.ok v
    | Except.error e => Except.error e
  (res, out.2.1 ++ [Event.wgJoin inner.wgId], out.2.2)

/-- `Pool::scoped(scheduler)`: `Scope::forever(self.clone()).zoom(scheduler)`. -/
def Pool.scoped {α : Type} (p : Pool) (f : SchedSem α) (joinPoisoned : Bool)
    (h : WGHeap) : Except Fault α × List Event × WGHeap :=
  let (s, h1) := Scope.forever p h
  s.zoom f joinPoisoned h1

/-- Effect of one event on the `pending` counter of the waitgroup `w`
(events on other waitgroups, queue events, thread spawns and job runs
leave it unchanged; `wgJoin` only reads it). -/
def stepPending (w : Nat) (p : Nat) : Event → Nat
  | Event.wgSubmit x => if x = w then p + 1 else p
  | Event.wgComplete x => if x = w then p - 1 else p
  | Event.wgPoison x => if x = w then p - 1 else p
  | _ => p

/-- All values taken by the `pending` counter of waitgroup `w` along a
trace, starting from `p` — including the initial and final values. -/
def pendingStates (w : Nat) (p : Nat) : List Event → List Nat
  | [] => [p]
  | e :: rest => p :: pendingStates w (stepPending w p e) rest

/-- Final value of the `pending` counter of waitgroup `w` after a trace. -/
def foldPending (w : Nat) (p : Nat) (tr : List Event) : Nat :=
  tr.foldl (stepPending w) p

/-- Whether an event mutates the `pending`/`poisoned` state of waitgroup
`w` (a submit, complete or poison on `w`). -/
def mutOn (w : Nat) : Event → Bool
  | Event.wgSubmit x => x == w
  | Event.wgComplete x => x == w
  | Event.wgPoison x => x == w
  | _ => false

/-- Whether an event is a blocking point of the model: a waitgroup join or
a queue pop. -/
def blockingEvent : Event → Bool
  | Event.wgJoin _ => true
  | Event.queuePop _ => true
  | _ => false

/-- Whether an event is a waitgroup submit. -/
def isSubmitEvent : Event → Bool
  | Event.wgSubmit _ => true
  | _ => false

/-- Whether a `runOps` result is a normal (non-faulting) one. -/
def isOkRun : Except Fault WGState → Bool
  | Except.ok _ => true
  | Except.error _ => false

/-- Whether a worker-loop iteration ended with a normal loop exit. -/
def StepResult.isExitOk : StepResult → Bool
  | StepResult.exitOk _ => true
  | _ => false

lemma zoom_trace_eq {α : Type} (s : Scope) (f : SchedSem α) (jp : Bool)
    (h : WGHeap) (r : Except Fault α) (tr : List Event) (h2 : WGHeap)
    (hf : f (Scope.refine s h).1 (Scope.refine s h).2 = (r, tr, h2)) :
    (Scope.zoom s f jp h).2.1 = tr ++ [Event.wgJoin (Scope.refine s h).1.wgId] := by
  simp only [Scope.zoom, hf]

lemma zoom_res_of_ok {α : Type} (s : Scope) (f : SchedSem α) (jp : Bool)
    (h : WGHeap) (v : α) (tr : List Event) (h2 : WGHeap)
    (hf : f (Scope.refine s h).1 (Scope.refine s h).2 = (Except.ok v, tr, h2)) :
    (Scope.zoom s f jp h).1 =
      if jp then Except.error Fault.poisonedFault else Except.ok v := by
  simp only [Scope.zoom, hf]

lemma zoom_res_of_err {α : Type} (s : Scope) (f : SchedSem α) (jp : Bool)
    (h : WGHeap) (e : Fault) (tr : List Event) (h2 : WGHeap)
    (hf : f (Scope.refine s h).1 (Scope.refine s h).2 = (Except.error e, tr, h2)) :
    (Scope.zoom s f jp h).1 = Except.error e := by
  simp only [Scope.zoom, hf]

/-! ### Claim theorems -/

/-- C4: `WaitGroup::join` blocks (re-polls) exactly while `pending > 0`;
at the moment it finds `pending == 0` it surfaces a fault when `poisoned`
is set and otherwise returns normally, immediately in both cases. -/
theorem waitgroup_join_drain_then_fault (s : WGState) :
    (0 < s.pending → s.joinPoll = none)
    ∧ (s.pending = 0 → s.poisoned = false → s.joinPoll = some (Except.ok ()))
    ∧ (s.pending = 0 → s.poisoned = true →
        s.joinPoll = some (Except.error Fault.poisonedFault)) := by
  refine ⟨fun hp => ?_, fun hp hq => ?_, fun hp hq => ?_⟩ <;>
    simp [WGState.joinPoll, hp]
  · omega
  · simp [hq]
  · simp [hq]

theorem waitgroup_join_drain_then_fault_witness :
    WGState.joinPoll { pending := 0, poisoned := true } =
      some (Except.error Fault.poisonedFault)
    ∧ WGState.joinPoll { pending := 1, poisoned := false } = none :=
  ⟨(waitgroup_join_drain_then_fault { pending := 0, poisoned := true }).2.2 rfl rfl,
   (waitgroup_join_drain_then_fault { pending := 1, poisoned := false }).1 (by decide)⟩

/-- C5: `submit` increments `pending` by exactly one, `complete` and
`poison` each decrement it by exactly one (`poison` additionally setting
the flag), and along any well-matched sequence of operations from an empty
WaitGroup, at every observable point (every prefix) `pending` equals the
cumulative submits minus the cumulative completes plus poisons. -/
theorem waitgroup_conservation (l : List WGOp) (hl : wellMatched l = true) :
    (∀ s : WGState, s.applyOp WGOp.submit =
        Except.ok { pending := s.pending + 1, poisoned := s.poisoned })
    ∧ (∀ s : WGState, 0 < s.pending →
        s.applyOp WGOp.complete =
          Except.ok { pending := s.pending - 1, poisoned := s.poisoned }
        ∧ s.applyOp WGOp.poison =
          Except.ok { pending := s.pending - 1, poisoned := true })
    ∧ (∀ p : List WGOp, p <+: l →
        runOps WGState.new p =
          Except.ok { pending := countSubmits p - countDowns p,
                      poisoned := anyPoisoned p }) := by
  refine ⟨fun s => rfl, fun s hs => ⟨?_, ?_⟩, fun p hp => ?_⟩
  · rw [WGState.applyOp, WGState.complete, if_neg (by omega)]
  · rw [WGState.applyOp, WGState.poison, if_neg (by omega)]
  · exact wellMatched_runOps p (wellMatchedMono p l hp hl)

theorem waitgroup_conservation_witness :
    runOps WGState.new [WGOp.submit, WGOp.poison, WGOp.submit, WGOp.complete] =
      Except.ok { pending := 0, poisoned := true } := by
  have h :=
    (waitgroup_conservation [WGOp.submit, WGOp.poison, WGOp.submit, WGOp.complete]
      (by decide)).2.2
      [WGOp.submit, WGOp.poison, WGOp.submit, WGOp.complete] ⟨[], List.append_nil _⟩
  simpa [countSubmits, countDowns, anyPoisoned] using h

/-- C9: `complete` and `poison` perform an unguarded decrement of the
unsigned `pending` counter: on a WaitGroup with `pending == 0` either call
underflows and faults, and with `pending >= 1` both succeed; along any
well-matched sequence (each complete/poison covered by a prior unconsumed
submit) starting from an empty WaitGroup, the underflow fault is never
reached. -/
theorem waitgroup_underflow_guard (s : WGState) (l : List WGOp)
    (hs : s.pending = 0) (hl : wellMatched l = true) :
    s.applyOp WGOp.complete = Except.error Fault.underflowFault
    ∧ s.applyOp WGOp.poison = Except.error Fault.underflowFault
    ∧ (∀ s2 : WGState, 0 < s2.pending →
        isOkRun (s2.applyOp WGOp.complete) = true
        ∧ isOkRun (s2.applyOp WGOp.poison) = true)
    ∧ isOkRun (runOps WGState.new l) = true := by
  refine ⟨?_, ?_, fun s2 hs2 => ⟨?_, ?_⟩, ?_⟩
  · rw [WGState.applyOp, WGState.complete, if_pos hs]
  · rw [WGState.applyOp, WGState.poison, if_pos hs]
  · rw [WGState.applyOp, WGState.complete, if_neg (by omega)]; rfl
  · rw [WGState.applyOp, WGState.poison, if_neg (by omega)]; rfl
  · rw [wellMatched_runOps l hl]; rfl

theorem waitgroup_underflow_guard_witness :
    WGState.applyOp { pending := 0, poisoned := false } WGOp.complete =
      Except.error Fault.underflowFault
    ∧ isOkRun (runOps WGState.new [WGOp.submit, WGOp.complete]) = true :=
  ⟨(waitgroup_underflow_guard { pending := 0, poisoned := false }
      [WGOp.submit, WGOp.complete] rfl (by decide)).1,
   (waitgroup_underflow_guard { pending := 0, poisoned := false }
      [WGOp.submit, WGOp.complete] rfl (by decide)).2.2.2⟩

/-- C3: a Task Sentinel guarding waitgroup `w` performs exactly one of
`complete` and `poison` on it, never both: the cancel path (cancel takes
the reference out, the subsequent destructor finds nothing) performs
exactly one `complete`, and the unwinding-destructor path performs exactly
one `poison`. -/
theorem task_sentinel_exactly_one (p : Pool) (w : Nat) :
    (Sentinel.cancelRun { pool := p, wg := some w }).2
        ++ ((Sentinel.cancelRun { pool := p, wg := some w }).1).dropRun
      = [Event.wgComplete w]
    ∧ Sentinel.dropRun { pool := p, wg := some w } = [Event.wgPoison w]
    ∧ (Sentinel.cancelRun { pool := p, wg := some w }).1.wg = none
    ∧ Sentinel.dropRun ((Sentinel.cancelRun { pool := p, wg := some w }).1) = [] :=
  ⟨rfl, rfl, rfl, rfl⟩

/-- C7: `Scope::execute(job)` performs exactly two events: first a
`submit` on the scope's own waitgroup, then a push of a `Task` message
whose waitgroup reference is that same waitgroup. -/
theorem scope_execute_submit_then_push (s : Scope) (job : Nat) :
    (Scope.execute s job).length = 2
    ∧ (Scope.execute s job)[0]? = some (Event.wgSubmit s.wgId)
    ∧ (Scope.execute s job)[1]? = some (Event.queuePush (PoolMessage.task job s.wgId))
    ∧ (Scope.execute s job).filter (mutOn s.wgId) = [Event.wgSubmit s.wgId] := by
  refine ⟨rfl, rfl, rfl, ?_⟩
  simp [Scope.execute, mutOn]

/-- C6: `Pool::spawn(job)` is exactly `Scope::forever(pool).execute(job)`:
it allocates a fresh anonymous empty waitgroup (reference `h.length`,
appended to the heap), performs exactly one `submit` — on that fresh
waitgroup — and one `Task` push referencing it, and performs no join and no
blocking event. -/
theorem spawn_equiv_forever_execute (p : Pool) (job : Nat) (h : WGHeap) :
    Pool.spawn p job h =
      (Scope.execute (Scope.forever p h).1 job, (Scope.forever p h).2)
    ∧ (Pool.spawn p job h).1 =
        [Event.wgSubmit h.length, Event.queuePush (PoolMessage.task job h.length)]
    ∧ (Pool.spawn p job h).2 = h ++ [WGState.new]
    ∧ ((Pool.spawn p job h).1.countP isSubmitEvent) = 1
    ∧ ((Pool.spawn p job h).1.filter blockingEvent) = [] := by
  refine ⟨rfl, rfl, rfl, ?_, ?_⟩
  · simp [Pool.spawn, Scope.forever, allocWG, Scope.execute, isSubmitEvent,
      List.countP_cons]
  · simp [Pool.spawn, Scope.forever, allocWG, Scope.execute, blockingEvent]

/-- C2: the unwinding destructor of an un-cancelled Thread Sentinel first
submits a replacement to the pool-wide waitgroup and spawns the
replacement thread (`expand`), and only then poisons that waitgroup; so
along the destructor's trace the pool-wide `pending`, starting from any
positive value (the dying worker's own credit is still outstanding), never
reaches zero, and ends where it started. -/
theorem thread_sentinel_restart_before_poison (p : Pool) (p0 : Nat)
    (hp : 1 ≤ p0) :
    ThreadSentinel.dropRun { pool := some p } =
      [Event.wgSubmit p.wgId, Event.threadSpawn, Event.wgPoison p.wgId]
    ∧ pendingStates p.wgId p0 (ThreadSentinel.dropRun { pool := some p }) =
        [p0, p0 + 1, p0 + 1, p0]
    ∧ (∀ n ∈ pendingStates p.wgId p0 (ThreadSentinel.dropRun { pool := some p }),
        1 ≤ n)
    ∧ foldPending p.wgId p0 (ThreadSentinel.dropRun { pool := some p }) = p0 := by
  have htr : ThreadSentinel.dropRun { pool := some p } =
      [Event.wgSubmit p.wgId, Event.threadSpawn, Event.wgPoison p.wgId] := rfl
  have hps : pendingStates p.wgId p0 (ThreadSentinel.dropRun { pool := some p }) =
      [p0, p0 + 1, p0 + 1, p0] := by
    rw [htr]
    simp [pendingStates, stepPending]
  refine ⟨htr, hps, ?_, ?_⟩
  · rw [hps]
    intro n hn
    simp only [List.mem_cons, List.not_mem_nil, or_false] at hn
    rcases hn with rfl | rfl | rfl | rfl <;> omega
  · rw [htr]
    simp [foldPending, stepPending]

theorem thread_sentinel_restart_before_poison_witness :
    pendingStates 7 1
        (ThreadSentinel.dropRun { pool := some { queueId := 0, wgId := 7 } }) =
      [1, 2, 2, 1] :=
  (thread_sentinel_restart_before_poison { queueId := 0, wgId := 7 } 1
    (by decide)).2.1

/-- C8: a worker that pops `Quit` re-pushes `Quit`, then cancels its
Thread Sentinel — completing (not poisoning) the pool-wide waitgroup and
spawning nothing, the emptied sentinel's later destruction adding no
event — and exits the loop normally; and for every `Task` message, with
the job succeeding or faulting, the iteration never ends in a normal loop
exit, so `Quit` is the only normal termination path. -/
theorem worker_quit_path (p : Pool) :
    (∀ jobOk : Bool,
      Pool.workerStep p { pool := some p } PoolMessage.quit jobOk =
        StepResult.exitOk
          [Event.queuePop PoolMessage.quit, Event.queuePush PoolMessage.quit,
           Event.wgComplete p.wgId])
    ∧ ([Event.queuePop PoolMessage.quit, Event.queuePush PoolMessage.quit,
         Event.wgComplete p.wgId].filter
          (fun e => e == Event.threadSpawn)) = []
    ∧ ([Event.queuePop PoolMessage.quit, Event.queuePush PoolMessage.quit,
         Event.wgComplete p.wgId].filter
          (fun e => e == Event.wgPoison p.wgId)) = []
    ∧ (∀ (ts : ThreadSentinel) (j w : Nat) (jobOk : Bool),
        StepResult.isExitOk
          (Pool.workerStep p ts (PoolMessage.task j w) jobOk) = false) := by
  refine ⟨fun jobOk => rfl, rfl, rfl, fun ts j w jobOk => ?_⟩
  cases jobOk <;> rfl

/-- C1: `Scope::zoom(f)` (and `Pool::scoped(f)`, which is
`Scope::forever(pool)` followed by `zoom`) joins the inner scope's
waitgroup on every exit path: whatever result `f` produced, the trace of
`zoom` is `f`'s trace followed by the join of the inner waitgroup, which
is its last event.  On a normal exit of `f` (and a clean inner join) the
value `f` produced is returned; a fault in `f` is propagated as the result
only with the inner join already in the trace before control returns. -/
theorem scope_zoom_joins_every_path {α : Type} (s : Scope) (f : SchedSem α)
    (jp : Bool) (h : WGHeap) (r : Except Fault α) (tr : List Event) (h2 : WGHeap)
    (hf : f (Scope.refine s h).1 (Scope.refine s h).2 = (r, tr, h2)) :
    (Scope.zoom s f jp h).2.1 = tr ++ [Event.wgJoin (Scope.refine s h).1.wgId]
    ∧ ((Scope.zoom s f jp h).2.1).getLast? =
        some (Event.wgJoin (Scope.refine s h).1.wgId)
    ∧ (∀ v : α, r = Except.ok v → jp = false → (Scope.zoom s f jp h).1 = Except.ok v)
    ∧ (∀ e : Fault, r = Except.error e → (Scope.zoom s f jp h).1 = Except.error e)
    ∧ (∀ q : Pool, Pool.scoped q f jp h =
        Scope.zoom (Scope.forever q h).1 f jp (Scope.forever q h).2) := by
  refine ⟨zoom_trace_eq s f jp h r tr h2 hf, ?_, fun v hv hjp => ?_,
    fun e he => ?_, fun q => rfl⟩
  · rw [zoom_trace_eq s f jp h r tr h2 hf]
    simp
  · rw [hv] at hf
    rw [zoom_res_of_ok s f jp h v tr h2 hf, hjp]
    rfl
  · rw [he] at hf
    exact zoom_res_of_err s f jp h e tr h2 hf

theorem scope_zoom_joins_every_path_witness :
    (Scope.zoom { pool := { queueId := 0, wgId := 0 }, wgId := 0 }
        (fun sc hh => ((Except.error (Fault.jobFault 5) : Except Fault Nat),
          [Event.wgSubmit sc.wgId], hh))
        false []).1 = Except.error (Fault.jobFault 5) :=
  (scope_zoom_joins_every_path { pool := { queueId := 0, wgId := 0 }, wgId := 0 }
      (fun sc hh => ((Except.error (Fault.jobFault 5) : Except Fault Nat),
        [Event.wgSubmit sc.wgId], hh))
      false [] (Except.error (Fault.jobFault 5))
      [Event.wgSubmit 0] [WGState.new] rfl).2.2.2.1
    (Fault.jobFault 5) rfl

/-- C10: `Scope::zoom` hands the scheduler an inner scope from `refine`:
the same pool handle (hence the same queue), and a newly allocated, empty
waitgroup — a reference distinct from the outer scope's.  Beyond the
scheduler's own events, `zoom` adds only the join of the inner waitgroup,
which mutates no waitgroup and in particular leaves the outer scope's
`pending` exactly as it was. -/
theorem zoom_frame_outer_waitgroup {α : Type} (s : Scope) (f : SchedSem α)
    (jp : Bool) (h : WGHeap) (hlt : s.wgId < h.length)
    (r : Except Fault α) (tr : List Event) (h2 : WGHeap)
    (hf : f (Scope.refine s h).1 (Scope.refine s h).2 = (r, tr, h2)) :
    (Scope.refine s h).1.pool = s.pool
    ∧ (Scope.refine s h).1.wgId = h.length
    ∧ (Scope.refine s h).1.wgId ≠ s.wgId
    ∧ (Scope.refine s h).2 = h ++ [WGState.new]
    ∧ ((Scope.refine s h).2)[(Scope.refine s h).1.wgId]? = some WGState.new
    ∧ (Scope.zoom s f jp h).2.1 = tr ++ [Event.wgJoin (Scope.refine s h).1.wgId]
    ∧ ([Event.wgJoin (Scope.refine s h).1.wgId].filter (mutOn s.wgId)) = []
    ∧ (∀ p0 : Nat,
        foldPending s.wgId p0 [Event.wgJoin (Scope.refine s h).1.wgId] = p0) := by
  refine ⟨rfl, rfl, by simpa [Scope.refine, allocWG] using Nat.ne_of_gt hlt,
    rfl, ?_, ?_, ?_, fun p0 => rfl⟩
  · show (h ++ [WGState.new])[h.length]? = some WGState.new
    simp
  · exact zoom_trace_eq s f jp h r tr h2 hf
  · rfl

theorem zoom_frame_outer_waitgroup_witness :
    (Scope.refine { pool := { queueId := 0, wgId := 0 }, wgId := 0 }
        [WGState.new]).1.wgId ≠ 0 :=
  (zoom_frame_outer_waitgroup { pool := { queueId := 0, wgId := 0 }, wgId := 0 }
      (fun sc hh => ((Except.ok 0 : Except Fault Nat), ([] : List Event), hh))
      false [WGState.new] (by decide)
      (Except.ok 0) [] ([WGState.new] ++ [WGState.new]) rfl).2.2.1

end SPool
